import Mathlib

/-!
Verification of the benchmark program `run_benchmarks.cpp`
(repository NAThompson/using_googlebenchmark).

The whole program is one benchmark function:

  static void BM_Pow(benchmark::State& state)
  {
    double y;
    while (state.KeepRunning())
    {
      benchmark::DoNotOptimize(y = std::pow(1.2, 1.2));
    }
    std::cout << y << '\n';
  }

We embed it shallowly: the floating-point doubles are modelled as real
numbers, `std::pow` as the real power function, the harness's
`KeepRunning` query as an external finite sequence of boolean answers,
the local `double y` as an `Option ℝ` (`none` = not yet assigned), and
the stream output as an explicit list of output events.
-/

noncomputable section

open Real

/-- Real-number model of `std::pow` from `<cmath>`: the real power
function `b ^ e` (`Real.rpow`). -/
def cpow (b e : ℝ) : ℝ := b ^ e

lemma cpow_def (b e : ℝ) : cpow b e = b ^ e := rfl

/-- Error conditions of the C math library `pow` that the source could
hit: a domain error when the base is negative and the exponent is not an
integer, and a pole error when the base is zero and the exponent is
negative.  On all other inputs `pow` returns a value. -/
inductive PowError
  | domainError
  | poleError

open Classical in
/-- The call `std::pow(b, e)` together with its C math library error
conditions: an error on the domain-error and pole-error inputs, and the
computed power otherwise. -/
def cpowChecked (b e : ℝ) : Except PowError ℝ :=
  if b < 0 ∧ ∀ n : ℤ, e ≠ (n : ℝ) then Except.error PowError.domainError
  else if b = 0 ∧ e < 0 then Except.error PowError.poleError
  else Except.ok (cpow b e)

/-- One output event of the program: `std::cout << y` writes the value
held by the local `y` (`none` when `y` was never assigned), and
`std::cout << '\n'` writes a newline. -/
inductive OutEvent
  | val (x : Option ℝ)
  | newline

/-- The state of one execution of `BM_Pow`: the local variable `y`
(`none` until it is first assigned), the number of times the body has
evaluated `std::pow`, and the output produced so far. -/
structure BMState where
  y : Option ℝ
  powEvals : ℕ
  out : List OutEvent

/-- State at function entry: `double y;` declares `y` unassigned, no
power evaluation has happened, nothing has been written. -/
def initState : BMState := { y := none, powEvals := 0, out := [] }

/-- The loop body, source line 11:
`benchmark::DoNotOptimize(y = std::pow(1.2, 1.2));`.
It assigns `std::pow(1.2, 1.2)` to `y`, evaluating `pow` once; it
writes no output. -/
def BM_Pow_body (st : BMState) : BMState :=
  { st with y := some (cpow 1.2 1.2), powEvals := st.powEvals + 1 }

/-- The `while (state.KeepRunning())` loop, source lines 9-12.  The
harness's continue-running query is modelled as an external finite
sequence of boolean answers; each `true` answer runs the body once, the
first `false` answer exits the loop. -/
def BM_PowLoop : List Bool → BMState → BMState
  | [], st => st
  | a :: rest, st => if a then BM_PowLoop rest (BM_Pow_body st) else st

/-- The answer sequence of the google/benchmark harness when it decides
to grant `N` iterations: `KeepRunning()` answers `true` `N` times and
then `false`. -/
def harnessAnswers (N : ℕ) : List Bool := List.replicate N true ++ [false]

/-- The whole of `BM_Pow`, source lines 6-14: declare `y`, run the
loop against the given answer sequence, then execute
`std::cout << y << '\n';`. -/
def BM_Pow (ans : List Bool) : BMState :=
  let st := BM_PowLoop ans initState
  { st with out := st.out ++ [OutEvent.val st.y, OutEvent.newline] }

/-- The pair of arguments that the source passes to `std::pow` on an
iteration (source line 11: `std::pow(1.2, 1.2)`), as a function of the
ambient runtime random source `r`.  The source mentions no random
source, so the pair is the literal `(1.2, 1.2)` whatever `r` is. -/
def BM_Pow_powInputs (_r : ℕ → ℝ) : ℝ × ℝ := (1.2, 1.2)

/-- The value the loop body computes on an iteration, as a function of
the ambient runtime random source `r`: `pow` applied to the two
arguments of `BM_Pow_powInputs`. -/
def BM_Pow_iterValue (r : ℕ → ℝ) : ℝ :=
  cpow (BM_Pow_powInputs r).1 (BM_Pow_powInputs r).2

/-! ### Basic facts about the loop -/

lemma BM_PowLoop_out (ans : List Bool) :
    ∀ st : BMState, (BM_PowLoop ans st).out = st.out := by
  induction ans with
  | nil => intro st; rfl
  | cons a rest ih =>
      intro st
      cases a with
      | false => rfl
      | true =>
          rw [show BM_PowLoop (true :: rest) st = BM_PowLoop rest (BM_Pow_body st) from rfl,
            ih (BM_Pow_body st)]
          rfl

lemma BM_PowLoop_evals (ans : List Bool) :
    ∀ st : BMState,
      (BM_PowLoop ans st).powEvals = st.powEvals + (ans.takeWhile id).length := by
  induction ans with
  | nil => intro st; simp [BM_PowLoop]
  | cons a rest ih =>
      intro st
      cases a with
      | false => simp [BM_PowLoop, List.takeWhile_cons]
      | true =>
          have := ih (BM_Pow_body st)
          simp [BM_PowLoop, List.takeWhile_cons, BM_Pow_body] at this ⊢
          omega

lemma BM_PowLoop_y_pos (N : ℕ) :
    ∀ st : BMState,
      (BM_PowLoop (harnessAnswers (N + 1)) st).y = some (cpow 1.2 1.2) := by
  induction N with
  | zero => intro st; rfl
  | succ n ih =>
      intro st
      have h : harnessAnswers (n + 2) = true :: harnessAnswers (n + 1) := by
        simp [harnessAnswers, List.replicate_succ]
      rw [h, show BM_PowLoop (true :: harnessAnswers (n + 1)) st =
        BM_PowLoop (harnessAnswers (n + 1)) (BM_Pow_body st) from rfl]
      exact ih (BM_Pow_body st)

lemma BM_PowLoop_zero (st : BMState) :
    BM_PowLoop (harnessAnswers 0) st = st := rfl

lemma takeWhile_harness (N : ℕ) :
    ((harnessAnswers N).takeWhile id).length = N := by
  induction N with
  | zero => rfl
  | succ n ih =>
      simp only [harnessAnswers, List.replicate_succ, List.cons_append,
        List.takeWhile_cons, id] at ih ⊢
      simp [ih]

lemma BM_Pow_out_eq (ans : List Bool) :
    (BM_Pow ans).out =
      (BM_PowLoop ans initState).out ++
        [OutEvent.val (BM_PowLoop ans initState).y, OutEvent.newline] := rfl

lemma BM_Pow_y_eq (ans : List Bool) :
    (BM_Pow ans).y = (BM_PowLoop ans initState).y := rfl

lemma BM_Pow_evals_eq (ans : List Bool) :
    (BM_Pow ans).powEvals = (BM_PowLoop ans initState).powEvals := rfl

lemma BM_Pow_out_pos (N : ℕ) (h : 1 ≤ N) :
    (BM_Pow (harnessAnswers N)).out =
      [OutEvent.val (some (cpow 1.2 1.2)), OutEvent.newline] := by
  obtain ⟨M, rfl⟩ := Nat.exists_eq_add_of_le h
  rw [Nat.add_comm 1 M, BM_Pow_out_eq, BM_PowLoop_out, BM_PowLoop_y_pos M initState]
  rfl

/-! ### Numeric bounds on `pow(1.2, 1.2)`.
Since `1.2 = 6/5`, the fifth power of `1.2 ^ 1.2` is `1.2 ^ 6`, an
explicit rational, and fifth powers order positive reals. -/

lemma cpow_12_pow5 : (cpow 1.2 1.2) ^ (5 : ℕ) = (1.2 : ℝ) ^ (6 : ℕ) := by
  rw [cpow_def, ← Real.rpow_natCast ((1.2 : ℝ) ^ (1.2 : ℝ)) 5,
    ← Real.rpow_mul (by norm_num : (0 : ℝ) ≤ 1.2)]
  have h : (1.2 : ℝ) * ((5 : ℕ) : ℝ) = ((6 : ℕ) : ℝ) := by norm_num
  rw [h, Real.rpow_natCast]

lemma cpow_12_nonneg : 0 ≤ cpow 1.2 1.2 := by
  rw [cpow_def]
  exact Real.rpow_nonneg (by norm_num) _

lemma cpow_12_lb : (1.2445 : ℝ) < cpow 1.2 1.2 := by
  refine lt_of_pow_lt_pow_left₀ 5 cpow_12_nonneg ?_
  rw [cpow_12_pow5]
  norm_num

lemma cpow_12_ub : cpow 1.2 1.2 < 1.2446 := by
  refine lt_of_pow_lt_pow_left₀ 5 (by norm_num) ?_
  rw [cpow_12_pow5]
  norm_num

/-! ### Claims -/

/-- C1: the only benchmarked operation computes the power function with
base 1.2 and exponent 1.2: every iteration of the benchmark loop
assigns to the local `y` exactly the value `pow(1.2, 1.2)`. -/
theorem BM_Pow_body_assigns_pow_12_12 (st : BMState) :
    (BM_Pow_body st).y = some (cpow 1.2 1.2) := rfl

/-- C4: the example computation `pow(1.2, 1.2)` evaluates to
approximately `1.2445`: it is within `10⁻⁴` of `1.2445`. -/
theorem cpow_12_12_approx : |cpow 1.2 1.2 - 1.2445| < 0.0001 := by
  have h1 := cpow_12_lb
  have h2 := cpow_12_ub
  rw [abs_lt]
  constructor <;> linarith

/-- C5: for all `s` and `t` in the range `[1, 10)`, `pow(s, t)` is
positive and finite (bounded by `10¹⁰`, far below the overflow
threshold); in the real-number model the computed value is the
mathematically exact power. -/
theorem cpow_pos_finite_on_range (s t : ℝ)
    (hs : s ∈ Set.Ico (1 : ℝ) 10) (ht : t ∈ Set.Ico (1 : ℝ) 10) :
    0 < cpow s t ∧ cpow s t < 10 ^ (10 : ℕ) := by
  obtain ⟨hs1, hs10⟩ := hs
  obtain ⟨ht1, ht10⟩ := ht
  rw [cpow_def]
  constructor
  · exact Real.rpow_pos_of_pos (by linarith) t
  · have h1 : s ^ t ≤ s ^ (10 : ℝ) :=
      Real.rpow_le_rpow_of_exponent_le hs1 (le_of_lt ht10)
    have h2 : s ^ (10 : ℝ) < (10 : ℝ) ^ (10 : ℝ) :=
      Real.rpow_lt_rpow (by linarith) hs10 (by norm_num)
    have h3 : (10 : ℝ) ^ (10 : ℝ) = (10 : ℝ) ^ (10 : ℕ) := by
      rw [← Real.rpow_natCast (10 : ℝ) 10]
      norm_num
    linarith

/-- Witness for C5 at the concrete input `s = t = 2`. -/
theorem cpow_pos_finite_on_range_witness :
    (2 : ℝ) ∈ Set.Ico (1 : ℝ) 10 ∧
      (0 < cpow 2 2 ∧ cpow 2 2 < 10 ^ (10 : ℕ)) :=
  ⟨by constructor <;> norm_num,
    cpow_pos_finite_on_range 2 2 (by constructor <;> norm_num)
      (by constructor <;> norm_num)⟩

/-- C3: the benchmark body has no failure path: for every input pair in
the range `[1, 10)` the call to `pow` hits none of the C math library
error conditions and returns the computed power, so no recoverable or
fatal error condition is reached. -/
theorem cpow_no_error_on_range (s t : ℝ)
    (hs : s ∈ Set.Ico (1 : ℝ) 10) (_ht : t ∈ Set.Ico (1 : ℝ) 10) :
    cpowChecked s t = Except.ok (cpow s t) := by
  obtain ⟨hs1, _⟩ := hs
  unfold cpowChecked
  rw [if_neg, if_neg]
  · rintro ⟨h0, -⟩
    linarith
  · rintro ⟨hneg, -⟩
    linarith

/-- Witness for C3 at the input pair actually executed by the source,
`pow(1.2, 1.2)`. -/
theorem cpow_no_error_on_range_witness :
    (1.2 : ℝ) ∈ Set.Ico (1 : ℝ) 10 ∧
      cpowChecked 1.2 1.2 = Except.ok (cpow 1.2 1.2) :=
  ⟨by constructor <;> norm_num,
    cpow_no_error_on_range 1.2 1.2 (by constructor <;> norm_num)
      (by constructor <;> norm_num)⟩

/-- C6: with the harness's continue-running query modelled as an
external sequence of boolean answers, the loop performs exactly one
`pow` computation per iteration whose answer is `true` and none once
the answer is `false`, and it terminates for every finite answer
sequence; a run of `N` granted iterations performs exactly `N`
computations. -/
theorem BM_Pow_evals_count :
    (∀ ans : List Bool,
        (BM_PowLoop ans initState).powEvals = (ans.takeWhile id).length) ∧
      ∀ N : ℕ, (BM_Pow (harnessAnswers N)).powEvals = N := by
  constructor
  · intro ans
    rw [BM_PowLoop_evals]
    simp [initState]
  · intro N
    rw [BM_Pow_evals_eq, BM_PowLoop_evals, takeWhile_harness]
    simp [initState]

/-- C7: the only output of `BM_Pow` is a single write, after the loop
has finished, of the final value of `y` followed by a newline; no loop
iteration writes anything, and for every run of at least one iteration
the written value is the result of the last `pow` computation. -/
theorem BM_Pow_single_output_after_loop (N : ℕ) (h : 1 ≤ N) :
    (BM_PowLoop (harnessAnswers N) initState).out = [] ∧
      (BM_Pow (harnessAnswers N)).out =
        [OutEvent.val (some (cpow 1.2 1.2)), OutEvent.newline] ∧
      (BM_Pow (harnessAnswers N)).y = some (cpow 1.2 1.2) := by
  refine ⟨?_, BM_Pow_out_pos N h, ?_⟩
  · rw [BM_PowLoop_out]
    rfl
  · obtain ⟨M, rfl⟩ := Nat.exists_eq_add_of_le h
    rw [Nat.add_comm 1 M, BM_Pow_y_eq, BM_PowLoop_y_pos M initState]

/-- Witness for C7 at a run of one granted iteration. -/
theorem BM_Pow_single_output_after_loop_witness :
    1 ≤ 1 ∧
      ((BM_PowLoop (harnessAnswers 1) initState).out = [] ∧
        (BM_Pow (harnessAnswers 1)).out =
          [OutEvent.val (some (cpow 1.2 1.2)), OutEvent.newline] ∧
        (BM_Pow (harnessAnswers 1)).y = some (cpow 1.2 1.2)) :=
  ⟨Nat.le_refl 1, BM_Pow_single_output_after_loop 1 (Nat.le_refl 1)⟩

/-- C9: when the harness grants zero iterations, `BM_Pow` prints the
local `y` without it ever having been assigned (the printed value is
the unassigned `none`); the printed output equals the computed power
exactly when at least one iteration ran. -/
theorem BM_Pow_zero_iterations_unassigned :
    (BM_Pow (harnessAnswers 0)).y = none ∧
      (BM_Pow (harnessAnswers 0)).out = [OutEvent.val none, OutEvent.newline] ∧
      ∀ N : ℕ,
        ((BM_Pow (harnessAnswers N)).out =
            [OutEvent.val (some (cpow 1.2 1.2)), OutEvent.newline] ↔ 1 ≤ N) := by
  refine ⟨rfl, rfl, ?_⟩
  intro N
  constructor
  · intro hout
    by_contra hN
    have h0 : N = 0 := by omega
    subst h0
    rw [show (BM_Pow (harnessAnswers 0)).out =
      [OutEvent.val none, OutEvent.newline] from rfl] at hout
    simp at hout
  · exact BM_Pow_out_pos N

/-- C10: the benchmarked computation is deterministic and independent
of the iteration count: any two runs granted at least one iteration
each print exactly the same output. -/
theorem BM_Pow_deterministic (N M : ℕ) (hN : 1 ≤ N) (hM : 1 ≤ M) :
    (BM_Pow (harnessAnswers N)).out = (BM_Pow (harnessAnswers M)).out := by
  rw [BM_Pow_out_pos N hN, BM_Pow_out_pos M hM]

/-- Witness for C10 at runs of one and two granted iterations. -/
theorem BM_Pow_deterministic_witness :
    1 ≤ 1 ∧ 1 ≤ 2 ∧
      (BM_Pow (harnessAnswers 1)).out = (BM_Pow (harnessAnswers 2)).out :=
  ⟨Nat.le_refl 1, by omega, BM_Pow_deterministic 1 2 (Nat.le_refl 1) (by omega)⟩

/-- C2 counterexample: with the runtime random source that constantly
draws 5 — a value inside `[1, 10)` — the base that `BM_Pow` passes to
`pow` is not a value produced by that source: the source only ever
produces 5, while the code passes the compile-time constant 1.2. -/
theorem BM_Pow_inputs_not_from_random_source :
    (∀ n : ℕ, (fun _ : ℕ => (5 : ℝ)) n ∈ Set.Ico (1 : ℝ) 10) ∧
      (BM_Pow_powInputs (fun _ : ℕ => (5 : ℝ))).1 ∉
        Set.range (fun _ : ℕ => (5 : ℝ)) := by
  constructor
  · intro n
    constructor <;> norm_num
  · rintro ⟨n, hn⟩
    rw [show (BM_Pow_powInputs (fun _ : ℕ => (5 : ℝ))).1 = (1.2 : ℝ) from rfl] at hn
    norm_num at hn

/-- C2 amended: the benchmarked operation takes its base and exponent
from the compile-time constants 1.2 and 1.2 — it draws nothing from any
runtime random source — and those constants do lie in `[1, 10)`. -/
theorem BM_Pow_inputs_constant (r : ℕ → ℝ) :
    BM_Pow_powInputs r = (1.2, 1.2) ∧
      (BM_Pow_powInputs r).1 ∈ Set.Ico (1 : ℝ) 10 ∧
      (BM_Pow_powInputs r).2 ∈ Set.Ico (1 : ℝ) 10 := by
  refine ⟨rfl, ?_, ?_⟩ <;>
    · simp only [BM_Pow_powInputs, Set.mem_Ico]
      constructor <;> norm_num

/-- C8 counterexample: the per-iteration value of the benchmark body is
one fixed constant, independent of every runtime random source — the
semantic condition that lets the compiler evaluate `pow(1.2, 1.2)` at
compile time, contradicting the claim that the loop defeats constant
folding. -/
theorem BM_Pow_iterValue_constant_foldable :
    ∃ c : ℝ, ∀ r : ℕ → ℝ, BM_Pow_iterValue r = c :=
  ⟨cpow 1.2 1.2, fun _ => rfl⟩

/-- C8 amended: the `DoNotOptimize` idiom defeats dead-code
elimination — the value computed in the loop body is observable, being
written to the output after the loop — but it does not defeat constant
folding: the operands are compile-time constants, so the per-iteration
value is `pow(1.2, 1.2)` whatever the runtime random source, exactly as
the README warns. -/
theorem BM_Pow_observable_but_constant (N : ℕ) (h : 1 ≤ N) :
    (∀ r : ℕ → ℝ, BM_Pow_iterValue r = cpow 1.2 1.2) ∧
      OutEvent.val (some (cpow 1.2 1.2)) ∈ (BM_Pow (harnessAnswers N)).out := by
  refine ⟨fun _ => rfl, ?_⟩
  rw [BM_Pow_out_pos N h]
  exact List.mem_cons_self _ _

/-- Witness for the amended C8 at a run of one granted iteration. -/
theorem BM_Pow_observable_but_constant_witness :
    1 ≤ 1 ∧
      ((∀ r : ℕ → ℝ, BM_Pow_iterValue r = cpow 1.2 1.2) ∧
        OutEvent.val (some (cpow 1.2 1.2)) ∈ (BM_Pow (harnessAnswers 1)).out) :=
  ⟨Nat.le_refl 1, BM_Pow_observable_but_constant 1 (Nat.le_refl 1)⟩
